import Mathlib

/-!
Shallow embedding of the recipe catalog core (`src/Recipe_finder.py`) and
proofs of its specified properties.

Modelling conventions:
* A Python recipe dict becomes the structure `Recipe`; the `self.recipes`
  dict (which preserves insertion order) becomes an ordered association
  list `RecipeDatabase = List (String × Recipe)`.
* Python floats appearing as ratings are modelled as `Rat`; an unrated
  recipe has `rating = none` (Python `None`).
* Optional parameters default to `None` in Python; they are `Option`
  arguments here, and Python truthiness tests (`if difficulty`,
  `if max_time`, `if min_rating`) are the `truthy*` helpers: `None`,
  the empty string, `0` and `0.0` are falsy.
* Python code that can raise is embedded in `Except String`; the
  comparison `recipe['Rating'] < min_rating` raises `TypeError` when the
  stored rating is `None`, and the embedding returns `Except.error` there.
* Methods that only read `self.recipes` are embedded as pure functions of
  the database; `add_recipe` returns the flag, the new database and
  whether `save_recipes` was invoked.
* Persistence (`json.dump` / `json.load`) is modelled at the level of the
  parsed JSON document: `JsonVal` is the JSON value written to and read
  from `data/recipes.json`, using the fixed field names of the storage
  format (`Cuisine`, `Ingredients`, `Prep Time`, `Difficulty`, `Rating`).
-/

/-- A recipe record, the value type of the `self.recipes` dict:
cuisine, ingredients, prep time (minutes), difficulty, optional rating. -/
structure Recipe where
  cuisine : String
  ingredients : List String
  prepTime : Int
  difficulty : String
  rating : Option Rat
  deriving DecidableEq, Repr

/-- The in-memory collection `self.recipes`: a name-keyed mapping with
insertion order preserved, modelled as an ordered association list. -/
abbrev RecipeDatabase := List (String × Recipe)

/-- Python truthiness of an optional string (`if difficulty:`):
`None` and the empty string are falsy. -/
def truthyStr : Option String → Bool
  | none => false
  | some s => !s.isEmpty

/-- Python truthiness of an optional integer (`if max_time:`):
`None` and `0` are falsy. -/
def truthyInt : Option Int → Bool
  | none => false
  | some t => t != 0

/-- Python truthiness of an optional float (`if min_rating:`):
`None` and `0.0` are falsy. -/
def truthyRat : Option Rat → Bool
  | none => false
  | some q => q != 0

/-- Equality of embedded run results (`Except`) is decidable, so claims
can be checked on concrete collections. -/
instance {e a : Type} [DecidableEq e] [DecidableEq a] :
    DecidableEq (Except e a) := fun x y =>
  match x, y with
  | Except.ok u, Except.ok v =>
      if h : u = v then isTrue (by rw [h])
      else isFalse (fun hc => h (by cases hc; rfl))
  | Except.error u, Except.error v =>
      if h : u = v then isTrue (by rw [h])
      else isFalse (fun hc => h (by cases hc; rfl))
  | Except.ok _, Except.error _ => isFalse (fun hc => by cases hc)
  | Except.error _, Except.ok _ => isFalse (fun hc => by cases hc)

/-- Python `name in self.recipes`: key membership test. -/
def containsKey (db : RecipeDatabase) (name : String) : Bool :=
  db.any (fun p => p.1 == name)

/-- The hard-coded 3-entry sample collection returned by `_load_recipes`
when the data file is missing or malformed (lines 24-46). -/
def sampleRecipes : RecipeDatabase :=
  [("Spaghetti Carbonara",
     { cuisine := "Italian",
       ingredients := ["Pasta", "Eggs", "Cheese", "Bacon"],
       prepTime := 20, difficulty := "Medium", rating := some (mkRat 9 2) }),
   ("Chicken Tikka Masala",
     { cuisine := "Indian",
       ingredients := ["Chicken", "Yogurt", "Spices", "Tomato Sauce"],
       prepTime := 45, difficulty := "Hard", rating := some (mkRat 24 5) }),
   ("Avocado Toast",
     { cuisine := "American",
       ingredients := ["Bread", "Avocado", "Salt", "Pepper"],
       prepTime := 5, difficulty := "Easy", rating := some (mkRat 37 10) })]

/-- Python `s.lower()`, as the list of lowercased characters of `s`
(ASCII case folding, which covers every string the program stores). -/
def lowerChars (s : String) : List Char :=
  s.data.map Char.toLower

/-- `get_cuisine_recommendations` (lines 54-57): the names whose cuisine
equals the input case-insensitively, in collection iteration order. -/
def get_cuisine_recommendations (db : RecipeDatabase) (cuisine : String) :
    List String :=
  (db.filter (fun p => lowerChars p.2.cuisine == lowerChars cuisine)).map
    Prod.fst

/-- Does the character list `s` start with the character list `p`? -/
def charsStartWith : List Char → List Char → Bool
  | [], _ => true
  | _ :: _, [] => false
  | p :: ps, c :: cs => p == c && charsStartWith ps cs

/-- Python `p in s` for strings, on their character lists: does `s`
contain `p` as a contiguous run? -/
def charsContain : List Char → List Char → Bool
  | p, [] => charsStartWith p []
  | p, c :: cs => charsStartWith p (c :: cs) || charsContain p cs

/-- `search_recipes` (lines 59-62): the keys whose lowercased name
contains the lowercased query, in collection iteration order. -/
def search_recipes (db : RecipeDatabase) (query : String) : List String :=
  (db.map Prod.fst).filter
    (fun name => charsContain (lowerChars query) (lowerChars name))

/-- One pass of the loop body of `filter_recipes` (lines 72-83) for a
single recipe: the three truthiness-guarded checks that clear the
`matches` flag. The third check compares `recipe['Rating'] < min_rating`,
which raises `TypeError` in Python when the stored rating is `None`. -/
def recipeMatches (difficulty : Option String) (max_time : Option Int)
    (min_rating : Option Rat) (r : Recipe) : Except String Bool :=
  let matches1 :=
    if truthyStr difficulty &&
        lowerChars r.difficulty != lowerChars (difficulty.getD "")
    then false else true
  let matches2 :=
    if truthyInt max_time && decide (max_time.getD 0 < r.prepTime)
    then false else matches1
  if truthyRat min_rating then
    match r.rating with
    | none =>
        Except.error
          "TypeError: '<' not supported between instances of 'NoneType' and 'float'"
    | some rt =>
        Except.ok (if decide (rt < min_rating.getD 0) then false else matches2)
  else
    Except.ok matches2

/-- `filter_recipes` (lines 64-85): scan the collection in iteration
order, keeping the names whose `matches` flag survives all provided
(truthy) constraints; propagates the `TypeError` raised on comparing an
absent rating against a truthy `min_rating`. -/
def filter_recipes (db : RecipeDatabase) (difficulty : Option String)
    (max_time : Option Int) (min_rating : Option Rat) :
    Except String (List String) :=
  match db with
  | [] => Except.ok []
  | (name, r) :: rest => do
      let m ← recipeMatches difficulty max_time min_rating r
      let tail ← filter_recipes rest difficulty max_time min_rating
      Except.ok (if m then name :: tail else tail)

/-- `get_recipe_details` (lines 87-89): Python `self.recipes.get(name)`,
exact-name lookup returning `none` when absent. -/
def get_recipe_details (db : RecipeDatabase) (name : String) :
    Option Recipe :=
  (db.find? (fun p => p.1 == name)).map Prod.snd

/-- Result of `add_recipe`: the returned boolean, the collection after
the call, and whether `save_recipes` was invoked during the call. -/
structure AddResult where
  ok : Bool
  recipes : RecipeDatabase
  saved : Bool
  deriving DecidableEq, Repr

/-- `add_recipe` (lines 91-105): reject without mutation or persistence
when the name is already a key; otherwise insert at the end of iteration
order, persist, and return `True`. -/
def add_recipe (db : RecipeDatabase) (name cuisine : String)
    (ingredients : List String) (prep_time : Int) (difficulty : String)
    (rating : Option Rat) : AddResult :=
  if containsKey db name then
    { ok := false, recipes := db, saved := false }
  else
    { ok := true,
      recipes := db ++ [(name,
        { cuisine := cuisine, ingredients := ingredients,
          prepTime := prep_time, difficulty := difficulty,
          rating := rating })],
      saved := true }

/-- A parsed JSON value, the shape of the document stored in
`data/recipes.json`. Python's `json` module distinguishes integers from
floats; both are carried here (`int` for `Prep Time`, `num` for
`Rating`), and `null` is Python `None`. -/
inductive JsonVal where
  | str (s : String)
  | int (n : Int)
  | num (q : Rat)
  | null
  | arr (xs : List JsonVal)
  | obj (fields : List (String × JsonVal))

/-- Serialization of one recipe dict as written by `json.dump` in
`save_recipes`: the fixed field names of the storage format, in the
order the code builds the dict. -/
def encodeRecipe (r : Recipe) : JsonVal :=
  JsonVal.obj
    [("Cuisine", JsonVal.str r.cuisine),
     ("Ingredients", JsonVal.arr (r.ingredients.map JsonVal.str)),
     ("Prep Time", JsonVal.int r.prepTime),
     ("Difficulty", JsonVal.str r.difficulty),
     ("Rating", match r.rating with
       | none => JsonVal.null
       | some q => JsonVal.num q)]

/-- `save_recipes` (lines 48-52): the JSON document `json.dump` writes,
mapping each recipe name to its serialized record in iteration order. -/
def save_recipes (db : RecipeDatabase) : JsonVal :=
  JsonVal.obj (db.map (fun p => (p.1, encodeRecipe p.2)))

/-- Reads a JSON array of strings back into a string list; `none` on any
non-string element. -/
def decodeStrList : List JsonVal → Option (List String)
  | [] => some []
  | JsonVal.str s :: rest => (decodeStrList rest).map (fun l => s :: l)
  | _ => none

/-- Reinterpretation of one stored JSON object as a recipe record: the
typed reading of the untyped dict `json.load` yields, per the storage
format of the spec (fields `Cuisine`, `Ingredients`, `Prep Time`,
`Difficulty`, `Rating` with `Rating` a number or `null`). -/
def decodeRecipe : JsonVal → Option Recipe
  | JsonVal.obj
      [("Cuisine", JsonVal.str c),
       ("Ingredients", JsonVal.arr ings),
       ("Prep Time", JsonVal.int t),
       ("Difficulty", JsonVal.str d),
       ("Rating", rv)] =>
      match rv with
      | JsonVal.null =>
          (decodeStrList ings).map
            (fun l => { cuisine := c, ingredients := l, prepTime := t,
                        difficulty := d, rating := none })
      | JsonVal.num q =>
          (decodeStrList ings).map
            (fun l => { cuisine := c, ingredients := l, prepTime := t,
                        difficulty := d, rating := some q })
      | _ => none
  | _ => none

/-- Reads a stored top-level JSON object back into a recipe collection,
entry by entry in document order. -/
def decodeDb : List (String × JsonVal) → Option RecipeDatabase
  | [] => some []
  | (name, jv) :: rest => do
      let r ← decodeRecipe jv
      let tail ← decodeDb rest
      some ((name, r) :: tail)

/-- `_load_recipes` (lines 17-46) over the modelled storage state:
`none` stands for a missing or malformed data file (`FileNotFoundError`
or `json.JSONDecodeError`), which falls back to the sample collection;
a present document is reinterpreted as the recipe collection. -/
def load_recipes : Option JsonVal → RecipeDatabase
  | none => sampleRecipes
  | some (JsonVal.obj fields) => (decodeDb fields).getD sampleRecipes
  | some _ => sampleRecipes

/-- The filter contract exactly as the claim words it: every provided
constraint applies, whatever its value — difficulty by case-insensitive
equality, `prep_time <= maxPrepTime`, `rating >= minRating` (a recipe
with no rating cannot satisfy a provided rating bound) — and absent
constraints are vacuously satisfied. -/
def claimProvidedMatches (difficulty : Option String) (max_time : Option Int)
    (min_rating : Option Rat) (r : Recipe) : Bool :=
  (match difficulty with
   | none => true
   | some s => lowerChars r.difficulty == lowerChars s) &&
  (match max_time with
   | none => true
   | some t => decide (r.prepTime ≤ t)) &&
  (match min_rating with
   | none => true
   | some q =>
     match r.rating with
     | some rt => decide (q ≤ rt)
     | none => false)

/-- The names the claim's reading of `Filter` would return: the keys of
the recipes meeting every provided constraint, in iteration order. -/
def claimFilterNames (db : RecipeDatabase) (difficulty : Option String)
    (max_time : Option Int) (min_rating : Option Rat) : List String :=
  (db.filter
    (fun p => claimProvidedMatches difficulty max_time min_rating p.2)).map
    Prod.fst

/-- Declarative per-recipe filter predicate with the documented
truthiness boundary: a truthy difficulty must match case-insensitively,
a truthy `max_time` bounds the prep time from above, a truthy
`min_rating` bounds the (present) rating from below, and falsy or absent
constraints are vacuous. -/
def specMatchesTruthy (difficulty : Option String) (max_time : Option Int)
    (min_rating : Option Rat) (r : Recipe) : Bool :=
  (!truthyStr difficulty ||
    lowerChars r.difficulty == lowerChars (difficulty.getD "")) &&
  (!truthyInt max_time || decide (r.prepTime ≤ max_time.getD 0)) &&
  (!truthyRat min_rating ||
    match r.rating with
    | some rt => decide (min_rating.getD 0 ≤ rt)
    | none => false)

/-- A one-recipe collection whose single recipe is unrated, as
`add_recipe` produces when called with `rating=None`. -/
def unratedDb : RecipeDatabase :=
  [("Mystery Stew",
     { cuisine := "Fusion", ingredients := ["Stuff"], prepTime := 10,
       difficulty := "Easy", rating := none })]

/-- A one-recipe collection used to exhibit the falsy-constraint
boundary of `filter_recipes`. -/
def cexDb : RecipeDatabase :=
  [("Pasta",
     { cuisine := "Italian", ingredients := ["Noodles"], prepTime := 10,
       difficulty := "Easy", rating := some 2 })]

/-- The query occurs in the name as a case-insensitive substring: the
spec's matching relation for `Search`. -/
def ContainsCI (query name : String) : Prop :=
  ∃ pre post, lowerChars name = pre ++ lowerChars query ++ post

theorem charsStartWith_iff (p s : List Char) :
    charsStartWith p s = true ↔ ∃ t, s = p ++ t := by
  induction p generalizing s with
  | nil =>
      simp [charsStartWith]
  | cons a ps ih =>
      cases s with
      | nil => simp [charsStartWith]
      | cons c cs =>
          simp only [charsStartWith, Bool.and_eq_true, beq_iff_eq, ih,
            List.cons_append, List.cons.injEq]
          constructor
          · rintro ⟨rfl, t, rfl⟩
            exact ⟨t, rfl, rfl⟩
          · rintro ⟨t, rfl, rfl⟩
            exact ⟨rfl, t, rfl⟩

theorem charsContain_iff (p s : List Char) :
    charsContain p s = true ↔ ∃ pre post, s = pre ++ p ++ post := by
  induction s with
  | nil =>
      cases p with
      | nil => simp [charsContain, charsStartWith]
      | cons a ps => simp [charsContain, charsStartWith]
  | cons c cs ih =>
      simp only [charsContain, Bool.or_eq_true, charsStartWith_iff, ih]
      constructor
      · rintro (⟨t, ht⟩ | ⟨pre, post, hp⟩)
        · exact ⟨[], t, by simp [ht]⟩
        · exact ⟨c :: pre, post, by simp [hp]⟩
      · rintro ⟨pre, post, hp⟩
        cases pre with
        | nil =>
            left
            exact ⟨post, by simpa using hp⟩
        | cons d pre2 =>
            right
            rw [List.cons_append, List.cons_append, List.cons.injEq] at hp
            exact ⟨pre2, post, hp.2⟩

theorem charsContain_nil_left (s : List Char) : charsContain [] s = true := by
  cases s <;> simp [charsContain, charsStartWith]

instance (query name : String) : Decidable (ContainsCI query name) :=
  decidable_of_iff
    (charsContain (lowerChars query) (lowerChars name) = true)
    (charsContain_iff (lowerChars query) (lowerChars name))

theorem charsContain_eq_decide_containsCI (query name : String) :
    charsContain (lowerChars query) (lowerChars name) =
      decide (ContainsCI query name) := by
  cases hb : charsContain (lowerChars query) (lowerChars name) with
  | true =>
      exact (decide_eq_true
        (show ContainsCI query name from (charsContain_iff _ _).mp hb)).symm
  | false =>
      refine (decide_eq_false ?_).symm
      intro hc
      rw [(charsContain_iff _ _).mpr hc] at hb
      cases hb

theorem get_recipe_details_isSome_of_mem_keys (db : RecipeDatabase)
    (name : String) (h : name ∈ db.map Prod.fst) :
    (get_recipe_details db name).isSome = true := by
  induction db with
  | nil => simp at h
  | cons hd tl ih =>
      simp only [List.map_cons, List.mem_cons] at h
      rcases h with h | h
      · simp [get_recipe_details, List.find?, h]
      · by_cases hk : hd.1 == name
        · simp [get_recipe_details, List.find?, hk]
        · have := ih h
          simp only [get_recipe_details, Option.isSome_map] at this ⊢
          simpa [List.find?, hk] using this

theorem find?_append_not_found (db : RecipeDatabase) (name : String)
    (r : Recipe) (h : containsKey db name = false) :
    List.find? (fun p => p.1 == name) (db ++ [(name, r)]) = some (name, r) := by
  induction db with
  | nil => simp [List.find?]
  | cons hd tl ih =>
      simp only [containsKey, List.any_cons, Bool.or_eq_false_iff] at h
      have := ih (by simpa [containsKey] using h.2)
      simpa [List.find?, h.1] using this

theorem boolChainTwo (A E B M : Bool) :
    (if (B && !M) = true then false
     else if (A && !E) = true then false else true)
      = ((!A || E) && (!B || M) && true) := by
  cases A <;> cases E <;> cases B <;> cases M <;> rfl

theorem boolChainThree (A E B M C : Bool) :
    (if (!C) = true then false
     else if (B && !M) = true then false
     else if (A && !E) = true then false else true)
      = ((!A || E) && (!B || M) && (!true || C)) := by
  cases A <;> cases E <;> cases B <;> cases M <;> cases C <;> rfl

theorem recipeMatches_eq_spec (difficulty : Option String)
    (max_time : Option Int) (min_rating : Option Rat) (r : Recipe)
    (h : truthyRat min_rating = true → (r.rating).isSome = true) :
    recipeMatches difficulty max_time min_rating r =
      Except.ok (specMatchesTruthy difficulty max_time min_rating r) := by
  have hlt : decide (max_time.getD 0 < r.prepTime)
      = !decide (r.prepTime ≤ max_time.getD 0) := by
    rw [decide_eq_decide.mpr not_le.symm, decide_not]
  simp only [recipeMatches, specMatchesTruthy, bne, hlt]
  cases hmr : truthyRat min_rating with
  | false =>
      simp only [Bool.false_eq_true, if_false, Bool.not_false, Bool.true_or]
      exact congrArg Except.ok (boolChainTwo _ _ _ _)
  | true =>
      cases hrt : r.rating with
      | none =>
          have hs := h hmr
          rw [hrt] at hs
          cases hs
      | some rt =>
          have hql : decide (rt < min_rating.getD 0)
              = !decide (min_rating.getD 0 ≤ rt) := by
            rw [decide_eq_decide.mpr not_le.symm, decide_not]
          simp only [hql]
          exact congrArg Except.ok (boolChainThree _ _ _ _ _)

theorem recipeMatches_max_time_zero (difficulty : Option String)
    (min_rating : Option Rat) (r : Recipe) :
    recipeMatches difficulty (some 0) min_rating r =
      recipeMatches difficulty none min_rating r := by
  simp [recipeMatches, truthyInt]

theorem recipeMatches_min_rating_zero (difficulty : Option String)
    (max_time : Option Int) (r : Recipe) :
    recipeMatches difficulty max_time (some 0) r =
      recipeMatches difficulty max_time none r := by
  simp [recipeMatches, truthyRat]

theorem filter_recipes_max_time_zero (db : RecipeDatabase)
    (difficulty : Option String) (min_rating : Option Rat) :
    filter_recipes db difficulty (some 0) min_rating =
      filter_recipes db difficulty none min_rating := by
  induction db with
  | nil => rfl
  | cons hd tl ih =>
      obtain ⟨name, r⟩ := hd
      simp [filter_recipes, recipeMatches_max_time_zero, ih]

theorem filter_recipes_min_rating_zero (db : RecipeDatabase)
    (difficulty : Option String) (max_time : Option Int) :
    filter_recipes db difficulty max_time (some 0) =
      filter_recipes db difficulty max_time none := by
  induction db with
  | nil => rfl
  | cons hd tl ih =>
      obtain ⟨name, r⟩ := hd
      simp [filter_recipes, recipeMatches_min_rating_zero, ih]

theorem decodeStrList_encode (l : List String) :
    decodeStrList (l.map JsonVal.str) = some l := by
  induction l with
  | nil => rfl
  | cons s rest ih => simp [decodeStrList, ih]

theorem decodeRecipe_encode (r : Recipe) :
    decodeRecipe (encodeRecipe r) = some r := by
  obtain ⟨c, ing, pt, d, rt⟩ := r
  cases rt <;> simp [encodeRecipe, decodeRecipe, decodeStrList_encode]

theorem decodeDb_encode (db : RecipeDatabase) :
    decodeDb (db.map (fun p => (p.1, encodeRecipe p.2))) = some db := by
  induction db with
  | nil => rfl
  | cons hd tl ih =>
      simp [decodeDb, decodeRecipe_encode, ih]

theorem filter_recipes_names_mem_keys (db : RecipeDatabase)
    (difficulty : Option String) (max_time : Option Int)
    (min_rating : Option Rat) (names : List String)
    (hok : filter_recipes db difficulty max_time min_rating =
      Except.ok names)
    (name : String) (hmem : name ∈ names) : name ∈ db.map Prod.fst := by
  induction db generalizing names with
  | nil =>
      cases hok
      cases hmem
  | cons hd tl ih =>
      obtain ⟨nm, r⟩ := hd
      simp only [filter_recipes] at hok
      cases hm : recipeMatches difficulty max_time min_rating r with
      | error e => rw [hm] at hok; cases hok
      | ok m =>
          rw [hm] at hok
          cases ht : filter_recipes tl difficulty max_time min_rating with
          | error e => rw [ht] at hok; cases hok
          | ok tailNames =>
              rw [ht] at hok
              have h2 : (Except.ok
                  (if m = true then nm :: tailNames else tailNames) :
                    Except String (List String)) = Except.ok names := hok
              injection h2 with h3
              subst h3
              simp only [List.map_cons, List.mem_cons]
              cases m with
              | true =>
                  rw [if_pos rfl] at hmem
                  rcases List.mem_cons.mp hmem with rfl | hmem2
                  · exact Or.inl rfl
                  · exact Or.inr (ih tailNames ht hmem2)
              | false =>
                  rw [if_neg (by simp)] at hmem
                  exact Or.inr (ih tailNames ht hmem)

/-- C1: evaluating `filter_recipes` on a collection holding an unrated
recipe, with a provided (truthy) `min_rating`, does not return a value:
the comparison `recipe['Rating'] < min_rating` raises `TypeError`, so
`Filter` is not total there, contrary to the stated propagation policy. -/
theorem C1_filter_unrated_min_rating_raises :
    filter_recipes unratedDb none none (some 1) =
      Except.error
        "TypeError: '<' not supported between instances of 'NoneType' and 'float'" := by
  decide

/-- C2: `add_recipe` with an existing name returns `False`, leaves the
collection unchanged and does not persist; with a fresh name it appends
the recipe, persists and returns `True`; a repeated `add_recipe` with
the same name then returns `False` and leaves the grown collection
unchanged without persisting. -/
theorem C2_add_duplicate_rejection (db : RecipeDatabase)
    (nm c : String) (ing : List String) (pt : Int) (d : String)
    (rt : Option Rat) :
    (containsKey db nm = true →
      add_recipe db nm c ing pt d rt =
        { ok := false, recipes := db, saved := false }) ∧
    (containsKey db nm = false →
      add_recipe db nm c ing pt d rt =
        { ok := true,
          recipes := db ++ [(nm, Recipe.mk c ing pt d rt)],
          saved := true } ∧
      ∀ c2 ing2 pt2 d2 rt2,
        add_recipe (db ++ [(nm, Recipe.mk c ing pt d rt)])
            nm c2 ing2 pt2 d2 rt2 =
          { ok := false,
            recipes := db ++ [(nm, Recipe.mk c ing pt d rt)],
            saved := false }) := by
  constructor
  · intro h
    simp [add_recipe, h]
  · intro h
    constructor
    · simp [add_recipe, h]
    · intro c2 ing2 pt2 d2 rt2
      simp [add_recipe, containsKey, List.any_append]

/-- Witness for C2: adding "Pie" to the empty collection succeeds and
persists; adding "Pie" again is rejected with no change and no
persistence. -/
theorem C2_add_duplicate_rejection_witness :
    add_recipe [] "Pie" "British" ["Apples"] 30 "Medium" none =
      { ok := true,
        recipes := [("Pie", Recipe.mk "British" ["Apples"] 30 "Medium" none)],
        saved := true } ∧
    add_recipe [("Pie", Recipe.mk "British" ["Apples"] 30 "Medium" none)]
        "Pie" "French" ["Pears"] 10 "Easy" none =
      { ok := false,
        recipes := [("Pie", Recipe.mk "British" ["Apples"] 30 "Medium" none)],
        saved := false } :=
  ⟨((C2_add_duplicate_rejection [] "Pie" "British" ["Apples"] 30 "Medium"
      none).2 (by decide)).1,
   ((C2_add_duplicate_rejection [] "Pie" "British" ["Apples"] 30 "Medium"
      none).2 (by decide)).2 "French" ["Pears"] 10 "Easy" none⟩

/-- C3 fails as stated: with a provided (but empty) difficulty string,
`filter_recipes` ignores the constraint and returns "Pasta", while the
set of names satisfying the provided constraints is empty; and with a
provided `min_rating` over a collection holding an unrated recipe,
`filter_recipes` raises instead of returning the matching names. -/
theorem C3_counterexample :
    filter_recipes cexDb (some "") none none = Except.ok ["Pasta"] ∧
    claimFilterNames cexDb (some "") none none = [] ∧
    (filter_recipes unratedDb none none (some 1)).isOk = false := by
  decide

/-- C3 (amended): whenever a truthy `min_rating` implies every stored
recipe is rated, `filter_recipes` returns exactly the names of the
recipes satisfying all provided truthy constraints — case-insensitive
difficulty equality, `prep_time <= maxPrepTime`, `rating >= minRating`,
with falsy provided constraints treated as absent — in collection
iteration order. -/
theorem C3_filter_exact (db : RecipeDatabase) (difficulty : Option String)
    (max_time : Option Int) (min_rating : Option Rat)
    (h : truthyRat min_rating = true →
      ∀ p ∈ db, (p.2.rating).isSome = true) :
    filter_recipes db difficulty max_time min_rating =
      Except.ok ((db.filter (fun p =>
        specMatchesTruthy difficulty max_time min_rating p.2)).map
        Prod.fst) := by
  induction db with
  | nil => rfl
  | cons hd tl ih =>
      obtain ⟨nm, r⟩ := hd
      have hh : truthyRat min_rating = true → (r.rating).isSome = true :=
        fun hm => h hm (nm, r) (List.mem_cons_self _ _)
      have ht : truthyRat min_rating = true →
          ∀ p ∈ tl, (p.2.rating).isSome = true :=
        fun hm p hp => h hm p (List.mem_cons_of_mem _ hp)
      simp only [filter_recipes, recipeMatches_eq_spec _ _ _ _ hh, ih ht]
      cases hs : specMatchesTruthy difficulty max_time min_rating r with
      | false =>
          simp only [List.filter_cons, hs, Bool.false_eq_true, if_false]
          rfl
      | true =>
          simp only [List.filter_cons, hs, if_true, List.map_cons]
          rfl

/-- Witness for C3 on the sample collection with all three constraints
provided and truthy. -/
theorem C3_filter_exact_witness :
    filter_recipes sampleRecipes (some "Easy") (some 30) (some 1) =
      Except.ok ((sampleRecipes.filter (fun p =>
        specMatchesTruthy (some "Easy") (some 30) (some 1) p.2)).map
        Prod.fst) :=
  C3_filter_exact sampleRecipes (some "Easy") (some 30) (some 1) (by decide)

/-- C4: a provided-but-zero `max_time` filters exactly as the absent
constraint does, and likewise a provided-but-zero `min_rating` — the
falsy-constraint-means-absent boundary behavior. -/
theorem C4_falsy_equals_absent (db : RecipeDatabase)
    (difficulty : Option String) (max_time : Option Int)
    (min_rating : Option Rat) :
    filter_recipes db difficulty (some 0) min_rating =
      filter_recipes db difficulty none min_rating ∧
    filter_recipes db difficulty max_time (some 0) =
      filter_recipes db difficulty max_time none :=
  ⟨filter_recipes_max_time_zero db difficulty min_rating,
   filter_recipes_min_rating_zero db difficulty max_time⟩

/-- C5: after a successful `add_recipe` of a name not already present,
`get_recipe_details` on that name returns a present recipe carrying
exactly the supplied cuisine, ingredients, prep time, difficulty and
rating. -/
theorem C5_add_then_details (db : RecipeDatabase) (nm c : String)
    (ing : List String) (pt : Int) (d : String) (rt : Option Rat)
    (h : containsKey db nm = false) :
    (add_recipe db nm c ing pt d rt).ok = true ∧
    get_recipe_details (add_recipe db nm c ing pt d rt).recipes nm =
      some (Recipe.mk c ing pt d rt) := by
  constructor
  · simp [add_recipe, h]
  · simp only [add_recipe, h, Bool.false_eq_true, if_false]
    simp [get_recipe_details,
      find?_append_not_found db nm (Recipe.mk c ing pt d rt) h]

/-- Witness for C5: adding "Pho" to the sample collection and looking it
up returns exactly the supplied fields. -/
theorem C5_add_then_details_witness :
    (add_recipe sampleRecipes "Pho" "Vietnamese" ["Noodles", "Broth"] 40
      "Medium" none).ok = true ∧
    get_recipe_details (add_recipe sampleRecipes "Pho" "Vietnamese"
      ["Noodles", "Broth"] 40 "Medium" none).recipes "Pho" =
      some (Recipe.mk "Vietnamese" ["Noodles", "Broth"] 40 "Medium" none) :=
  C5_add_then_details sampleRecipes "Pho" "Vietnamese" ["Noodles", "Broth"]
    40 "Medium" none (by decide)

/-- C6: the empty query returns every recipe name in collection
iteration order, and in general `search_recipes` returns exactly the
names containing the query as a case-insensitive substring, in
collection iteration order. -/
theorem C6_search_empty_and_substring (db : RecipeDatabase)
    (query : String) :
    search_recipes db "" = db.map Prod.fst ∧
    search_recipes db query =
      (db.map Prod.fst).filter
        (fun name => decide (ContainsCI query name)) := by
  constructor
  · refine List.filter_eq_self.mpr ?_
    intro a _
    exact charsContain_nil_left (lowerChars a)
  · simp only [search_recipes, charsContain_eq_decide_containsCI]

/-- C7: `get_cuisine_recommendations` is case-insensitive — inputs equal
up to letter case give identical result lists — and a name is
recommended exactly when some recipe stored under it has a cuisine equal
to the input up to letter case; no match yields the empty list rather
than an error, since the operation always returns a list. -/
theorem C7_recommend_case_insensitive (db : RecipeDatabase)
    (c1 c2 : String) (h : lowerChars c1 = lowerChars c2) :
    get_cuisine_recommendations db c1 = get_cuisine_recommendations db c2 ∧
    ∀ name, name ∈ get_cuisine_recommendations db c1 ↔
      ∃ r : Recipe, (name, r) ∈ db ∧
        lowerChars r.cuisine = lowerChars c1 := by
  constructor
  · simp [get_cuisine_recommendations, h]
  · intro name
    simp only [get_cuisine_recommendations, List.mem_map, List.mem_filter]
    constructor
    · rintro ⟨⟨n2, r⟩, ⟨hmem, hcuis⟩, rfl⟩
      exact ⟨r, hmem, by simpa using hcuis⟩
    · rintro ⟨r, hmem, hcuis⟩
      exact ⟨(name, r), ⟨hmem, by simpa using hcuis⟩, rfl⟩

/-- Witness for C7: "italian" and "Italian" give identical
recommendation lists on the sample collection. -/
theorem C7_recommend_case_insensitive_witness :
    get_cuisine_recommendations sampleRecipes "italian" =
      get_cuisine_recommendations sampleRecipes "Italian" :=
  (C7_recommend_case_insensitive sampleRecipes "italian" "Italian"
    (by decide)).1

/-- C8: persisting any collection with `save_recipes` and reloading the
written document with `_load_recipes` yields the same collection, entry
for entry — names, cuisines, ingredients, prep times, difficulties and
ratings, absent ratings included. -/
theorem C8_persist_load_roundtrip (db : RecipeDatabase) :
    load_recipes (some (save_recipes db)) = db := by
  simp [load_recipes, save_recipes, decodeDb_encode]

/-- C9: on the fallback sample collection (loaded when storage is
missing), `Filter(difficulty="Easy", maxPrepTime=30)` returns exactly
["Avocado Toast"], `Search("Chicken")` returns exactly
["Chicken Tikka Masala"], and `RecommendByCuisine("French")` returns
the empty list. -/
theorem C9_sample_scenario :
    load_recipes none = sampleRecipes ∧
    filter_recipes sampleRecipes (some "Easy") (some 30) none =
      Except.ok ["Avocado Toast"] ∧
    search_recipes sampleRecipes "Chicken" = ["Chicken Tikka Masala"] ∧
    get_cuisine_recommendations sampleRecipes "French" = [] :=
  ⟨rfl, by decide, by decide, by decide⟩

/-- C10: the read operations are embedded as pure functions of the
collection — they take the collection as an argument and return only
their results, so they can neither change it nor persist — and every
name each of them returns is a key of the collection, so
`get_recipe_details` on a returned name is never absent. -/
theorem C10_reads_return_present_keys (db : RecipeDatabase)
    (cuisine query : String) (difficulty : Option String)
    (max_time : Option Int) (min_rating : Option Rat) :
    (∀ name ∈ get_cuisine_recommendations db cuisine,
      (get_recipe_details db name).isSome = true) ∧
    (∀ name ∈ search_recipes db query,
      (get_recipe_details db name).isSome = true) ∧
    (∀ names, filter_recipes db difficulty max_time min_rating =
        Except.ok names →
      ∀ name ∈ names, (get_recipe_details db name).isSome = true) := by
  refine ⟨?_, ?_, ?_⟩
  · intro name hmem
    apply get_recipe_details_isSome_of_mem_keys
    simp only [get_cuisine_recommendations, List.mem_map,
      List.mem_filter] at hmem ⊢
    obtain ⟨p, ⟨hp, _⟩, rfl⟩ := hmem
    exact ⟨p, hp, rfl⟩
  · intro name hmem
    exact get_recipe_details_isSome_of_mem_keys db name
      (List.mem_of_mem_filter hmem)
  · intro names hok name hmem
    exact get_recipe_details_isSome_of_mem_keys db name
      (filter_recipes_names_mem_keys db difficulty max_time min_rating
        names hok name hmem)

/-- Witness for C10: names returned by recommendation, search and filter
on the sample collection all have present details. -/
theorem C10_reads_return_present_keys_witness :
    (get_recipe_details sampleRecipes "Spaghetti Carbonara").isSome =
      true ∧
    (get_recipe_details sampleRecipes "Chicken Tikka Masala").isSome =
      true ∧
    (get_recipe_details sampleRecipes "Avocado Toast").isSome = true :=
  ⟨(C10_reads_return_present_keys sampleRecipes "Italian" "Chicken"
      (some "Easy") (some 30) none).1 "Spaghetti Carbonara" (by decide),
   (C10_reads_return_present_keys sampleRecipes "Italian" "Chicken"
      (some "Easy") (some 30) none).2.1 "Chicken Tikka Masala" (by decide),
   (C10_reads_return_present_keys sampleRecipes "Italian" "Chicken"
      (some "Easy") (some 30) none).2.2 ["Avocado Toast"] (by decide)
      "Avocado Toast" (by decide)⟩
